import Mathlib

/-!
# New-New-Media: the crossfade players

A shallow embedding of `src/Player.jsx` (the live player fed over a WebSocket)
and `src/PlayerWeb.jsx` (the preloaded player), followed by the properties
proved about them.

JavaScript numbers are modelled by rationals.  Timestamps stand for the finite,
non-negative doubles handed to a `requestAnimationFrame` callback; the
subtraction and the division of the transition clock are rounded to the
nearest double, ties to even, as the code computes them.  Array indices are
naturals, and JavaScript's remainder on arbitrary integers is the truncated
remainder.  `null` for `tRef.current.start` is `none`.  The cover-fit rectangle
is computed over the exact rationals.
-/

namespace NewNewMedia

/-! ## JavaScript primitives -/

/-- JavaScript `a % b` on integers: the truncated remainder, whose sign follows
the dividend (`-1 % 3` is `-1`). -/
def jsRem (a b : Int) : Int := Int.tmod a b

/-- JavaScript `buf[k]` for an integer key `k`: `undefined` (here `none`) when
`k` is negative or not below the length. -/
def jsIndex {α : Type} (buf : List α) (k : Int) : Option α :=
  if k < 0 then none else buf.get? k.toNat

/-- The frame lookup of both players, `buf[i % buf.length]`. -/
def frameAt {α : Type} (buf : List α) (i : Int) : Option α :=
  jsIndex buf (jsRem i (buf.length : Int))

/-! ## The ring buffer of the live player (`Player.jsx`, lines 40-44) -/

/-- One `img.onload` on the ring: `push(img)`, then `shift()` when the length
exceeds the capacity. -/
def ringPush {α : Type} (cap : Nat) (ring : List α) (img : α) : List α :=
  let pushed := ring ++ [img]
  if pushed.length > cap then pushed.tail else pushed

/-- The capacity written in `Player.jsx` (`length > 300`). -/
def RING_CAPACITY : Nat := 300

/-- The ring after the frames `fs` have loaded one after the other. -/
def pushAll {α : Type} (cap : Nat) (ring : List α) (fs : List α) : List α :=
  fs.foldl (ringPush cap) ring

/-! ## Values read from a parsed message -/

/-- What a property read on the result of `JSON.parse` can yield.  `object`
stands for arrays and nested objects, which are truthy and are not strings. -/
inductive JsVal where
  | undefined : JsVal
  | null : JsVal
  | bool (b : Bool) : JsVal
  | num (q : ℚ) : JsVal
  | str (s : String) : JsVal
  | object : JsVal
  deriving DecidableEq

/-- JavaScript truthiness (`if (v)`, `v || w`). -/
def JsVal.truthy : JsVal → Bool
  | .undefined => false
  | .null => false
  | .bool b => b
  | .num q => decide (q ≠ 0)
  | .str s => decide (s ≠ "")
  | .object => true

/-- The expression `v || ""`. -/
def JsVal.orEmpty (v : JsVal) : JsVal :=
  if v.truthy then v else JsVal.str ""

/-- The test `v === s` against a string literal. -/
def JsVal.strictEqStr (v : JsVal) (s : String) : Bool :=
  match v with
  | .str t => decide (t = s)
  | _ => false

/-- The exceptions the handlers can raise. -/
inductive JsError where
  | syntaxError : JsError
  | typeError : JsError
  deriving DecidableEq

/-- The four properties the message handler reads from a parsed message.  A
parsed number, string, boolean or array has all four `undefined`. -/
structure Msg where
  type : JsVal
  data : JsVal
  path : JsVal
  caption : JsVal

/-- The outcome of `JSON.parse(ev.data)`: a syntax error is thrown, or the value
is `null`, or it is a value whose properties can be read. -/
inductive ParseResult where
  | corrupt : ParseResult
  | nullValue : ParseResult
  | value (m : Msg) : ParseResult

/-! ## Location references (`Player.jsx`, lines 30-37) -/

/-- The replacement `.replace(/\\/g, "/")` on one character. -/
def slashChar (c : Char) : Char := if c = '\\' then '/' else c

/-- The test `/^[A-Za-z]:/`: an ASCII letter followed by a colon. -/
def driveLetter : List Char → Bool
  | c :: ':' :: _ => (decide ('A' ≤ c) && decide (c ≤ 'Z')) || (decide ('a' ≤ c) && decide (c ≤ 'z'))
  | _ => false

/-- The body of `toFileURL` on the characters of a string. -/
def toFileURLChars (p : List Char) : List Char :=
  let u := p.map slashChar
  if !("file://".toList.isPrefixOf u) then
    if driveLetter u then "file:///".toList ++ u
    else "file://".toList ++ u
  else u

/-- The function `toFileURL` on a string argument. -/
def toFileURL (p : String) : String := String.mk (toFileURLChars p.toList)

/-- The call `toFileURL(msg.path)` on any value: `(p || "")` is a string only
when `p` is falsy or a string, and `.replace` on anything else is a type error. -/
def toFileURLVal (p : JsVal) : Except JsError String :=
  match p.orEmpty with
  | .str s => .ok (toFileURL s)
  | _ => .error JsError.typeError

/-! ## Images and drawing -/

/-- Where an `Image` was told to load from: `src` never assigned, `msg.data`
assigned as it came, or the URL built from `msg.path`. -/
inductive ImgSrc where
  | unset : ImgSrc
  | data (v : JsVal) : ImgSrc
  | url (u : String) : ImgSrc

/-- A decoded image: its source and its size. -/
structure Img where
  src : ImgSrc
  width : ℚ
  height : ℚ

/-- The arguments `dx, dy, dw, dh` handed to `ctx.drawImage`. -/
structure Rect where
  dx : ℚ
  dy : ℚ
  dw : ℚ
  dh : ℚ
  deriving DecidableEq

/-- The function `drawCover` of both players, on an image of size `iw` by `ih`
and a canvas of size `cw` by `ch`. -/
def drawCover (iw ih cw ch : ℚ) : Rect :=
  let arImg := iw / ih
  let arCan := cw / ch
  if arImg > arCan then
    let drawH := ch
    let drawW := ch * arImg
    { dx := -(drawW - cw) / 2, dy := 0, dw := drawW, dh := drawH }
  else
    let drawW := cw
    let drawH := cw / arImg
    { dx := 0, dy := -(drawH - ch) / 2, dw := drawW, dh := drawH }

/-- The two stacked canvases: `B` below, `A` above. -/
inductive Surface where
  | A : Surface
  | B : Surface
  deriving DecidableEq

/-- One canvas call of a tick; `globalAlpha` is the value assigned to
`ctx.globalAlpha` before the `drawImage`. -/
inductive DrawCmd where
  | clearRect (s : Surface) : DrawCmd
  | drawImage (s : Surface) (img : Img) (globalAlpha : ℚ) (r : Rect) : DrawCmd

/-- Width of both canvases (`width={1024}`). -/
def CANVAS_WIDTH : ℚ := 1024

/-- Height of both canvases (`height={768}`). -/
def CANVAS_HEIGHT : ℚ := 768

/-- Length of a crossfade in milliseconds (`duration`, `DURATION_MS`). -/
def DURATION_MS : ℚ := 2000

/-! ## Double-precision rounding -/

/-- Nearest integer to a rational, a tie going to the even neighbour. -/
def roundHalfEven (y : ℚ) : ℤ :=
  let f := ⌊y⌋
  let r := y - f
  if r < 1 / 2 then f
  else if 1 / 2 < r then f + 1
  else if f % 2 = 0 then f else f + 1

/-- Exponent of the unit in the last place of the double nearest to `x`:
52 below the binade of `x`, and never below that of the subnormals. -/
def ulpExponent (x : ℚ) : ℤ := max (Int.log 2 |x|) (-1022) - 52

/-- The double nearest to the exact result `x` of an arithmetic operation
(round to nearest, ties to even, subnormals included).  Results whose
magnitude reaches `2 ^ 1024` are not produced by the transition clock, whose
operands are non-negative timestamps. -/
def roundDouble (x : ℚ) : ℚ :=
  if x = 0 then 0
  else (roundHalfEven (x / (2 : ℚ) ^ ulpExponent x) : ℚ) * (2 : ℚ) ^ ulpExponent x

/-! ## The transition clock shared by both ticks -/

/-- The value of `tRef.current.start` after `if (!tRef.current.start)
tRef.current.start = t`: `null` and the number `0` are both falsy. -/
def lazyStart (start : Option ℚ) (t : ℚ) : ℚ :=
  match start with
  | none => t
  | some v => if v = 0 then t else v

/-- The value `Math.min(1, (t - tRef.current.start) / duration)` of a tick at
`t`, the subtraction and the division each rounded to a double. -/
def tickAlpha (start : Option ℚ) (t : ℚ) : ℚ :=
  let elapsed := roundDouble (t - lazyStart start t)
  min 1 (roundDouble (elapsed / DURATION_MS))

/-- The four canvas calls of a tick that draws frames `f1` (base) and `f2` (overlay). -/
def crossfadeDraws (f1 f2 : Img) (alpha : ℚ) : List DrawCmd :=
  [ DrawCmd.clearRect Surface.B,
    DrawCmd.clearRect Surface.A,
    DrawCmd.drawImage Surface.B f1 1 (drawCover f1.width f1.height CANVAS_WIDTH CANVAS_HEIGHT),
    DrawCmd.drawImage Surface.A f2 alpha (drawCover f2.width f2.height CANVAS_WIDTH CANVAS_HEIGHT) ]

/-! ## The live player (`Player.jsx`) -/

/-- The mutable state of `Player`: the refs, the React state, the number of
`console.warn` calls made by the message handler, and the images whose load
the handler has started. -/
structure LiveState where
  ring : List Img
  bufferSize : Nat
  caption : JsVal
  paused : Bool
  idx : Nat
  start : Option ℚ
  warnings : Nat
  pending : List ImgSrc

/-- The state of `Player` when it mounts. -/
def LiveState.init : LiveState :=
  { ring := [], bufferSize := 0, caption := JsVal.str "", paused := false,
    idx := 0, start := none, warnings := 0, pending := [] }

/-- The handler `img.onload` for a decoded image. -/
def onload (st : LiveState) (img : Img) : LiveState :=
  let ring := ringPush RING_CAPACITY st.ring img
  { st with ring := ring, bufferSize := ring.length }

/-- The `try` block of `ws.onmessage`. -/
def onmessageBody (st : LiveState) (r : ParseResult) : Except JsError LiveState :=
  match r with
  | .corrupt => .error JsError.syntaxError
  | .nullValue => .error JsError.typeError
  | .value msg =>
    if msg.type.strictEqStr "new_frame" then
      if msg.data.truthy then
        .ok { st with pending := st.pending ++ [ImgSrc.data msg.data] }
      else if msg.path.truthy then
        match toFileURLVal msg.path with
        | .ok u => .ok { st with pending := st.pending ++ [ImgSrc.url u] }
        | .error e => .error e
      else
        .ok { st with pending := st.pending ++ [ImgSrc.unset] }
    else if msg.type.strictEqStr "explain_result" then
      .ok { st with caption := msg.caption.orEmpty }
    else
      .ok st

/-- The handler `ws.onmessage`: the `try` block, and `console.warn` in the
`catch`.  The result is `.error` exactly when the handler itself would throw. -/
def onmessage (st : LiveState) (r : ParseResult) : Except JsError LiveState :=
  match onmessageBody st r with
  | .ok st1 => .ok st1
  | .error _ => .ok { st with warnings := st.warnings + 1 }

/-- One call of `render(t)`: the new state and the canvas calls made. -/
def render (st : LiveState) (t : ℚ) : LiveState × List DrawCmd :=
  if st.paused then (st, [])
  else
    let start := lazyStart st.start t
    let alpha := tickAlpha st.start t
    if h : 0 < st.ring.length then
      let i1 : Fin st.ring.length := ⟨st.idx % st.ring.length, Nat.mod_lt _ h⟩
      let i2 : Fin st.ring.length := ⟨(st.idx + 1) % st.ring.length, Nat.mod_lt _ h⟩
      let draws := crossfadeDraws (st.ring.get i1) (st.ring.get i2) alpha
      if alpha ≥ 1 then
        ({ st with idx := (st.idx + 1) % st.ring.length, start := some t }, draws)
      else
        ({ st with start := some start }, draws)
    else
      ({ st with start := some start }, [])

/-- The handler `handlePause`. -/
def handlePause (st : LiveState) : LiveState := { st with paused := !st.paused }

/-- The frame `handleExplain` asks about, `buf[idxRef.current % buf.length]`;
nothing when the buffer is empty. -/
def explainFrame (st : LiveState) : Option Img :=
  if st.ring.length = 0 then none else frameAt st.ring (st.idx : Int)

/-- The `path` of the message `handleExplain` sends for a frame,
`img.__srcPath || ""`.  No statement assigns `__srcPath` (the assignment at
line 153 is inside a comment), so the property reads `undefined`. -/
def explainPath (_img : Img) : JsVal := JsVal.undefined.orEmpty

/-- The `path` sent by `handleExplain` on an open socket; nothing is sent when
the buffer is empty. -/
def handleExplain (st : LiveState) : Option JsVal :=
  (explainFrame st).map explainPath

/-- The live state after the ticks `ts`, in order. -/
def renderAll (st : LiveState) (ts : List ℚ) : LiveState :=
  ts.foldl (fun s t => (render s t).1) st

/-! ## The preloaded player (`PlayerWeb.jsx`) -/

/-- An entry of the preloaded ring, `{img, caption}`. -/
structure Entry where
  img : Img
  caption : JsVal

/-- The mutable state of `PlayerWeb`. -/
structure WebState where
  ring : List Entry
  bufferSize : Nat
  caption : JsVal
  paused : Bool
  idx : Nat
  start : Option ℚ

/-- The state of `PlayerWeb` when it mounts. -/
def WebState.init : WebState :=
  { ring := [], bufferSize := 0, caption := JsVal.str "", paused := false,
    idx := 0, start := none }

/-- One call of `loop(t)`: the new state and the canvas calls made. -/
def loop (st : WebState) (t : ℚ) : WebState × List DrawCmd :=
  if st.paused then (st, [])
  else if h : st.ring.length = 0 then (st, [])
  else
    let start := lazyStart st.start t
    let alpha := tickAlpha st.start t
    have hpos : 0 < st.ring.length := Nat.pos_of_ne_zero h
    let i1 : Fin st.ring.length := ⟨st.idx % st.ring.length, Nat.mod_lt _ hpos⟩
    let i2 : Fin st.ring.length := ⟨(st.idx + 1) % st.ring.length, Nat.mod_lt _ hpos⟩
    let draws := crossfadeDraws (st.ring.get i1).img (st.ring.get i2).img alpha
    if alpha ≥ 1 then
      ({ st with idx := (st.idx + 1) % st.ring.length, start := some t,
                 caption := (st.ring.get i2).caption.orEmpty }, draws)
    else
      ({ st with start := some start }, draws)

/-- The web state after the ticks `ts`, in order. -/
def loopAll (st : WebState) (ts : List ℚ) : WebState :=
  ts.foldl (fun s t => (loop s t).1) st

/-- Number of frames shipped (`FRAME_COUNT`). -/
def FRAME_COUNT : Nat := 80

/-- How the metadata request of one frame ends: `fetch` rejects, the response
is not OK, the body is not JSON, the body is JSON `null`, or the body is a
JSON value whose `caption` property reads as given (`undefined` when absent). -/
inductive MetaFetch where
  | rejected : MetaFetch
  | notOk : MetaFetch
  | badJson : MetaFetch
  | jsonNull : MetaFetch
  | json (caption : JsVal) : MetaFetch

/-- How the two requests of one frame end: the image decodes or `onerror`
fires (`none`), and the metadata request. -/
structure FrameLoad where
  img : Option Img
  metadata : MetaFetch

/-- The expression `cap.caption` on what the metadata promise resolves to; the
promise resolves to `{caption: ""}` in the three failure cases. -/
def fetchedCaption : MetaFetch → Except JsError JsVal
  | .rejected => .ok (JsVal.str "")
  | .notOk => .ok (JsVal.str "")
  | .badJson => .ok (JsVal.str "")
  | .jsonNull => .error JsError.typeError
  | .json c => .ok c

/-- The preloaded player together with its running `loadAll`: the loop counter,
the local `entries`, the `cancelled` flag and whether the loop is still going. -/
structure WebSys where
  st : WebState
  i : Nat
  entries : List Entry
  cancelled : Bool
  loading : Bool

/-- The preloaded player when it mounts and `loadAll` starts. -/
def WebSys.init : WebSys :=
  { st := WebState.init, i := 0, entries := [], cancelled := false, loading := true }

/-- The continuation of `loadAll` when the awaited pair of iteration `i` settles
as `world i` says: reject, or push the entry, publish the ring and go on, and
after the last frame set the initial caption. -/
def loadIteration (world : Nat → FrameLoad) (s : WebSys) : WebSys :=
  if !s.loading then s
  else
    match (world s.i).img, fetchedCaption (world s.i).metadata with
    | some img, .ok cap =>
      let entries := s.entries ++ [{ img := img, caption := cap.orEmpty }]
      if s.cancelled then { s with entries := entries, loading := false }
      else
        let st1 := { s.st with ring := entries, bufferSize := entries.length }
        if s.i + 1 < FRAME_COUNT then
          { s with st := st1, i := s.i + 1, entries := entries }
        else
          match entries.head? with
          | some e =>
            { s with st := { st1 with caption := e.caption.orEmpty }, i := s.i + 1,
                     entries := entries, loading := false }
          | none => { s with st := st1, i := s.i + 1, entries := entries, loading := false }
    | _, _ => { s with loading := false }

/-- What can happen to the mounted preloaded player. -/
inductive WebEvent where
  | tick (t : ℚ) : WebEvent
  | settled : WebEvent
  | togglePause : WebEvent
  | unmount : WebEvent

/-- One event on the preloaded player. -/
def webStep (world : Nat → FrameLoad) (s : WebSys) : WebEvent → WebSys
  | .tick t => { s with st := (loop s.st t).1 }
  | .settled => loadIteration world s
  | .togglePause => { s with st := { s.st with paused := !s.st.paused } }
  | .unmount => { s with cancelled := true }

/-- The preloaded player after the events `es`, in order, from mounting. -/
def webRun (world : Nat → FrameLoad) (es : List WebEvent) : WebSys :=
  es.foldl (webStep world) WebSys.init

/-- The caption a frame is meant to carry: the fetched `caption` field, or the
empty string when the fetch failed, was not OK, or carried no caption (a
falsy `caption` counts as none). -/
def storedCaption : MetaFetch → JsVal
  | .json c => if c.truthy then c else JsVal.str ""
  | _ => JsVal.str ""

/-! ## The playback core shared by the two ticks -/

/-- The playback part of either state: index and transition start. -/
structure Playback where
  currentIndex : Nat
  transitionStartTime : Option ℚ
  deriving DecidableEq

/-- Playback part of the live state. -/
def LiveState.playback (st : LiveState) : Playback :=
  { currentIndex := st.idx, transitionStartTime := st.start }

/-- Playback part of the web state. -/
def WebState.playback (st : WebState) : Playback :=
  { currentIndex := st.idx, transitionStartTime := st.start }

/-! ## Predicates used in the statements -/

/-- An invalid message: the payload does not parse, or it parses
and its `type` is neither `"new_frame"` nor `"explain_result"` (for `null` the
property cannot even be read). -/
def invalidMessage : ParseResult → Bool
  | .corrupt => true
  | .nullValue => true
  | .value msg => !msg.type.strictEqStr "new_frame" && !msg.type.strictEqStr "explain_result"

/-- Whether reading the message ends in the `catch`: a corrupt payload or `null`. -/
def unreadable : ParseResult → Bool
  | .corrupt => true
  | .nullValue => true
  | .value _ => false

/-- An entry list agrees with the world: entry `k` holds the image and the
stored caption of frame `k`. -/
def entriesMatch (world : Nat → FrameLoad) (entries : List Entry) : Prop :=
  ∀ (k : Nat) (e : Entry), entries.get? k = some e →
    (world k).img = some e.img ∧ e.caption = storedCaption (world k).metadata

/-- The invariant of the preloaded player: while loading, the loop counter is
the number of entries; the local entries and the published ring both agree
with the world. -/
def webInv (world : Nat → FrameLoad) (s : WebSys) : Prop :=
  (s.loading = true → s.i = s.entries.length) ∧
  entriesMatch world s.entries ∧
  entriesMatch world s.st.ring

/-! ## Concrete states used to instantiate the theorems -/

/-- A 1600 by 900 frame loaded from a data URL. -/
def demoFrame : Img :=
  { src := ImgSrc.data (JsVal.str "data:image/jpeg;base64,AAAA"), width := 1600, height := 900 }

/-- A running live player holding two frames, whose transition began at 100 ms. -/
def demoLive : LiveState :=
  { ring := [demoFrame, demoFrame], bufferSize := 2, caption := JsVal.str "", paused := false,
    idx := 0, start := some 100, warnings := 0, pending := [] }

/-- A running preloaded player holding two entries, whose transition began at 100 ms. -/
def demoWeb : WebState :=
  { ring := [{ img := demoFrame, caption := JsVal.str "first" },
             { img := demoFrame, caption := JsVal.str "second" }],
    bufferSize := 2, caption := JsVal.str "first", paused := false, idx := 0, start := some 100 }

/-- A world in which every image decodes and every metadata request returns a
caption, except that the request of frame 1 returns a non-OK response. -/
def demoWorld : Nat → FrameLoad := fun k =>
  { img := some demoFrame,
    metadata := if k = 1 then MetaFetch.notOk else MetaFetch.json (JsVal.str "a caption") }

/-- A parsed message whose `type` is a string the handler does not know. -/
def bogusMessage : ParseResult :=
  ParseResult.value
    { type := JsVal.str "bogus", data := JsVal.undefined, path := JsVal.undefined,
      caption := JsVal.undefined }

/-! ## Lemmas: ring buffer -/

theorem ringPush_of_le {α : Type} (cap : Nat) (ring : List α) (img : α)
    (h : ring.length ≤ cap) :
    ringPush cap ring img = (ring ++ [img]).drop (ring.length + 1 - cap) := by
  unfold ringPush
  simp only [List.length_append, List.length_singleton]
  split
  · have h1 : ring.length + 1 - cap = 1 := by omega
    rw [h1, List.drop_one]
  · have h0 : ring.length + 1 - cap = 0 := by omega
    rw [h0, List.drop_zero]

theorem pushAll_snoc {α : Type} (cap : Nat) (ring fs : List α) (f : α) :
    pushAll cap ring (fs ++ [f]) = ringPush cap (pushAll cap ring fs) f := by
  simp [pushAll, List.foldl_append]

theorem pushAll_nil_eq_drop {α : Type} (cap : Nat) (fs : List α) :
    pushAll cap [] fs = fs.drop (fs.length - cap) := by
  induction fs using List.reverseRecOn with
  | nil => simp [pushAll]
  | append_singleton fs f ih =>
    have hlen : (fs.drop (fs.length - cap)).length ≤ cap := by
      rw [List.length_drop]; omega
    rw [pushAll_snoc, ih, ringPush_of_le _ _ _ hlen]
    rw [List.length_drop, List.length_append, List.length_singleton]
    by_cases hc : fs.length < cap
    · have e1 : fs.length - cap = 0 := by omega
      have e3 : fs.length + 1 - cap = 0 := by omega
      rw [e1, e3]
      have e2 : fs.length - 0 + 1 - cap = 0 := by omega
      rw [e2]
      simp
    · have e2 : fs.length - (fs.length - cap) + 1 - cap = 1 := by omega
      have e3 : fs.length + 1 - cap = (fs.length - cap) + 1 := by omega
      have hle : fs.length - cap ≤ fs.length := by omega
      rw [e2, e3, ← List.drop_drop, List.drop_append_of_le_length hle]

theorem foldl_onload_ring (fs : List Img) (st : LiveState) :
    (fs.foldl onload st).ring = pushAll RING_CAPACITY st.ring fs := by
  induction fs generalizing st with
  | nil => rfl
  | cons f fs ih =>
    simp only [List.foldl_cons]
    rw [ih]
    rfl

theorem foldl_onload_bufferSize (fs : List Img) (f : Img) (st : LiveState) :
    ((fs ++ [f]).foldl onload st).bufferSize = ((fs ++ [f]).foldl onload st).ring.length := by
  simp [List.foldl_append, onload]

/-! ## Lemmas: JavaScript remainder and lookup -/

theorem jsRem_neg_natCast (m n : Nat) : jsRem (-(m : Int)) (n : Int) = -((m % n : Nat) : Int) := by
  cases m with
  | zero => simp [jsRem]
  | succ k => rfl

theorem jsRem_natCast (m n : Nat) : jsRem (m : Int) (n : Int) = ((m % n : Nat) : Int) := rfl

theorem jsIndex_natCast {α : Type} (buf : List α) (k : Nat) :
    jsIndex buf (k : Int) = buf.get? k := by
  simp [jsIndex]

theorem jsIndex_neg {α : Type} (buf : List α) (k : Int) (h : k < 0) :
    jsIndex buf k = none := by
  simp [jsIndex, h]

theorem frameAt_natCast {α : Type} (buf : List α) (i : Nat) :
    frameAt buf (i : Int) = buf.get? (i % buf.length) := by
  unfold frameAt
  rw [jsRem_natCast, jsIndex_natCast]

theorem frameAt_shift_nonneg {α : Type} (buf : List α) (i : Int) (h : 0 ≤ i) :
    frameAt buf i = frameAt buf (i + buf.length) := by
  obtain ⟨m, rfl⟩ := Int.eq_ofNat_of_zero_le h
  have e : (m : Int) + (buf.length : Int) = ((m + buf.length : Nat) : Int) := by push_cast; rfl
  rw [e, frameAt_natCast, frameAt_natCast, Nat.add_mod_right]

theorem explainFrame_eq (st : LiveState) (h : st.ring ≠ []) :
    explainFrame st = st.ring.get? (st.idx % st.ring.length) := by
  have hl : st.ring.length ≠ 0 := by
    intro h0
    exact h (List.length_eq_zero.mp h0)
  unfold explainFrame
  rw [if_neg hl, frameAt_natCast]

theorem handleExplain_sends_empty_path (st : LiveState) (h : st.ring ≠ []) :
    handleExplain st = some (JsVal.str "") := by
  have hpos : 0 < st.ring.length := List.length_pos.mpr h
  unfold handleExplain
  rw [explainFrame_eq st h, List.get?_eq_get (Nat.mod_lt _ hpos)]
  rfl

/-! ## Lemmas: the two ticks -/

theorem render_paused (st : LiveState) (t : ℚ) (h : st.paused = true) :
    render st t = (st, []) := by
  simp [render, h]

theorem render_commit (st : LiveState) (t : ℚ) (hp : st.paused = false)
    (hl : 0 < st.ring.length) (ha : 1 ≤ tickAlpha st.start t) :
    (render st t).1 = { st with idx := (st.idx + 1) % st.ring.length, start := some t } := by
  simp [render, hp, hl, ha]

theorem render_hold (st : LiveState) (t : ℚ) (hp : st.paused = false)
    (hl : 0 < st.ring.length) (ha : tickAlpha st.start t < 1) :
    (render st t).1 = { st with start := some (lazyStart st.start t) } := by
  simp [render, hp, hl, not_le.mpr ha]

theorem render_empty (st : LiveState) (t : ℚ) (hp : st.paused = false)
    (hl : st.ring.length = 0) :
    (render st t).1 = { st with start := some (lazyStart st.start t) } := by
  simp [render, hp, hl]

theorem loop_paused (st : WebState) (t : ℚ) (h : st.paused = true) :
    loop st t = (st, []) := by
  simp [loop, h]

theorem loop_empty (st : WebState) (t : ℚ) (hl : st.ring.length = 0) :
    loop st t = (st, []) := by
  unfold loop
  split
  · rfl
  · simp [hl]

theorem loop_commit (st : WebState) (t : ℚ) (hp : st.paused = false)
    (hl : 0 < st.ring.length) (ha : 1 ≤ tickAlpha st.start t) :
    (loop st t).1 =
      { st with idx := (st.idx + 1) % st.ring.length, start := some t,
                caption := (st.ring.get ⟨(st.idx + 1) % st.ring.length,
                  Nat.mod_lt _ hl⟩).caption.orEmpty } := by
  have hne : ¬ st.ring.length = 0 := by omega
  simp [loop, hp, hne, ha]

theorem loop_hold (st : WebState) (t : ℚ) (hp : st.paused = false)
    (hl : 0 < st.ring.length) (ha : tickAlpha st.start t < 1) :
    (loop st t).1 = { st with start := some (lazyStart st.start t) } := by
  have hne : ¬ st.ring.length = 0 := by omega
  simp [loop, hp, hne, not_le.mpr ha]

theorem loop_ring (st : WebState) (t : ℚ) : (loop st t).1.ring = st.ring := by
  unfold loop
  split
  · rfl
  · split
    · rfl
    · simp only []
      split <;> rfl

/-! ## Lemmas: rounding and the transition clock -/

theorem roundHalfEven_intCast (z : ℤ) : roundHalfEven (z : ℚ) = z := by
  unfold roundHalfEven
  simp

theorem roundDouble_zero : roundDouble 0 = 0 := by
  simp [roundDouble]

theorem log_two_eq_of_bounds (x : ℚ) (e : ℤ) (hx : 0 < x) (h1 : (2 : ℚ) ^ e ≤ x)
    (h2 : x < (2 : ℚ) ^ (e + 1)) : Int.log 2 x = e := by
  have a : e ≤ Int.log 2 x :=
    (Int.zpow_le_iff_le_log (by norm_num) hx).mp (by exact_mod_cast h1)
  have b : Int.log 2 x < e + 1 :=
    (Int.lt_zpow_iff_log_lt (by norm_num) hx).mp (by exact_mod_cast h2)
  omega

theorem roundDouble_intCast (n : ℤ) (h : |n| < 2 ^ 53) : roundDouble (n : ℚ) = n := by
  unfold roundDouble
  split
  · rename_i h0; rw [h0]
  · rename_i h0
    have hn : n ≠ 0 := by exact_mod_cast h0
    have habs : (0 : ℚ) < |(n : ℚ)| := abs_pos.mpr h0
    have hlt : |(n : ℚ)| < (2 : ℚ) ^ (53 : ℤ) := by
      have h1 : ((|n| : ℤ) : ℚ) < ((2 ^ 53 : ℤ) : ℚ) := Int.cast_lt.mpr h
      rw [Int.cast_abs] at h1
      calc |(n : ℚ)| < ((2 ^ 53 : ℤ) : ℚ) := h1
        _ = (2 : ℚ) ^ (53 : ℤ) := by norm_num
    have hlog : Int.log 2 |(n : ℚ)| < 53 :=
      (Int.lt_zpow_iff_log_lt (by norm_num) habs).mp (by exact_mod_cast hlt)
    obtain ⟨k, hk⟩ : ∃ k : ℕ, ulpExponent (n : ℚ) = -(k : ℤ) := by
      refine ⟨(52 - max (Int.log 2 |(n : ℚ)|) (-1022)).toNat, ?_⟩
      unfold ulpExponent
      omega
    rw [hk]
    have e1 : (n : ℚ) / (2 : ℚ) ^ (-(k : ℤ)) = ((n * 2 ^ k : ℤ) : ℚ) := by
      rw [zpow_neg, zpow_natCast]
      push_cast
      field_simp
    rw [e1, roundHalfEven_intCast, zpow_neg, zpow_natCast]
    push_cast
    field_simp

theorem roundDouble_one : roundDouble 1 = 1 := by
  have h := roundDouble_intCast 1 (by norm_num)
  simpa using h

theorem roundDouble_2000 : roundDouble 2000 = 2000 := by
  have h := roundDouble_intCast 2000 (by norm_num)
  simpa using h

/-- The rounding is not the identity: one tenth becomes the double `0.1`. -/
theorem roundDouble_tenth :
    roundDouble (1 / 10) = 3602879701896397 / 36028797018963968 := by
  have hl : Int.log 2 |(1 / 10 : ℚ)| = -4 := by
    apply log_two_eq_of_bounds <;> norm_num [abs_of_pos]
  have hu : ulpExponent (1 / 10) = -56 := by
    unfold ulpExponent
    rw [hl]; rfl
  unfold roundDouble
  rw [if_neg (by norm_num), hu]
  have hr : roundHalfEven ((1 / 10 : ℚ) / (2 : ℚ) ^ (-56 : ℤ)) = 7205759403792794 := by
    unfold roundHalfEven
    have hf : ⌊(1 / 10 : ℚ) / (2 : ℚ) ^ (-56 : ℤ)⌋ = 7205759403792793 := by
      rw [Int.floor_eq_iff]
      constructor <;> norm_num
    simp only [hf]
    norm_num
  rw [hr]
  norm_num

theorem tickAlpha_le_one (start : Option ℚ) (t : ℚ) : tickAlpha start t ≤ 1 := by
  unfold tickAlpha
  exact min_le_left _ _

theorem tickAlpha_of_lazyStart_eq (start : Option ℚ) (t : ℚ) (h : lazyStart start t = t) :
    tickAlpha start t = 0 := by
  unfold tickAlpha
  simp [h, roundDouble_zero]

theorem tickAlpha_unset (t : ℚ) : tickAlpha none t = 0 :=
  tickAlpha_of_lazyStart_eq none t rfl

theorem tickAlpha_zero_start (t : ℚ) : tickAlpha (some 0) t = 0 :=
  tickAlpha_of_lazyStart_eq (some 0) t (by simp [lazyStart])

theorem tickAlpha_at_start (t : ℚ) : tickAlpha (some t) t = 0 := by
  apply tickAlpha_of_lazyStart_eq
  show (if t = 0 then t else t) = t
  split_ifs <;> rfl

theorem tickAlpha_100_2100 : tickAlpha (some 100) 2100 = 1 := by
  have e : lazyStart (some 100) 2100 = 100 := by norm_num [lazyStart]
  unfold tickAlpha
  simp only [e, DURATION_MS]
  norm_num [roundDouble_2000, roundDouble_one]

/-- With the doubles `0.1` and `2000.1` as start and timestamp the exact
difference is below 2000, the rounded difference is 2000, and alpha is 1. -/
theorem tickAlpha_rounds_up_to_one :
    (4398266413429555 / 2199023255552 : ℚ) - 3602879701896397 / 36028797018963968 < 2000 ∧
    tickAlpha (some (3602879701896397 / 36028797018963968))
      (4398266413429555 / 2199023255552) = 1 := by
  refine ⟨by norm_num, ?_⟩
  have e : lazyStart (some (3602879701896397 / 36028797018963968 : ℚ))
      (4398266413429555 / 2199023255552) = 3602879701896397 / 36028797018963968 := by
    norm_num [lazyStart]
  have hd : roundDouble ((4398266413429555 / 2199023255552 : ℚ) -
      3602879701896397 / 36028797018963968) = 2000 := by
    have hl : Int.log 2 |(4398266413429555 / 2199023255552 : ℚ) -
        3602879701896397 / 36028797018963968| = 10 := by
      apply log_two_eq_of_bounds <;> norm_num [abs_of_pos]
    have hu : ulpExponent ((4398266413429555 / 2199023255552 : ℚ) -
        3602879701896397 / 36028797018963968) = -42 := by
      unfold ulpExponent
      rw [hl]; rfl
    unfold roundDouble
    rw [if_neg (by norm_num), hu]
    have hr : roundHalfEven (((4398266413429555 / 2199023255552 : ℚ) -
        3602879701896397 / 36028797018963968) / (2 : ℚ) ^ (-42 : ℤ)) = 8796093022208000 := by
      unfold roundHalfEven
      have hf : ⌊((4398266413429555 / 2199023255552 : ℚ) -
          3602879701896397 / 36028797018963968) / (2 : ℚ) ^ (-42 : ℤ)⌋ = 8796093022207999 := by
        rw [Int.floor_eq_iff]
        constructor <;> norm_num
      simp only [hf]
      norm_num
    rw [hr]
    norm_num
  unfold tickAlpha
  simp only [e, hd, DURATION_MS]
  norm_num [roundDouble_one]

/-! ## Lemmas: preloading -/

theorem orEmpty_fetchedCaption (m : MetaFetch) (cap : JsVal)
    (h : fetchedCaption m = .ok cap) : cap.orEmpty = storedCaption m := by
  cases m with
  | rejected => cases h; rfl
  | notOk => cases h; rfl
  | badJson => cases h; rfl
  | jsonNull => cases h
  | json c => cases h; rfl

theorem orEmpty_storedCaption (m : MetaFetch) :
    (storedCaption m).orEmpty = storedCaption m := by
  cases m with
  | json c =>
    unfold storedCaption JsVal.orEmpty
    by_cases hc : c.truthy = true
    · simp [hc]
    · simp only [hc]
      rfl
  | rejected => rfl
  | notOk => rfl
  | badJson => rfl
  | jsonNull => rfl

theorem entriesMatch_nil (world : Nat → FrameLoad) : entriesMatch world [] := by
  intro k e h
  simp at h

theorem entriesMatch_snoc (world : Nat → FrameLoad) (entries : List Entry) (e : Entry)
    (h : entriesMatch world entries) (himg : (world entries.length).img = some e.img)
    (hcap : e.caption = storedCaption (world entries.length).metadata) :
    entriesMatch world (entries ++ [e]) := by
  intro k e1 hk
  by_cases hlt : k < entries.length
  · rw [List.get?_eq_getElem?, List.getElem?_append_left hlt, ← List.get?_eq_getElem?] at hk
    exact h k e1 hk
  · have hge : entries.length ≤ k := not_lt.mp hlt
    rw [List.get?_eq_getElem?, List.getElem?_append_right hge] at hk
    cases hd : k - entries.length with
    | zero =>
      rw [hd] at hk
      have hke : k = entries.length := by omega
      simp at hk
      subst hk
      rw [hke]
      exact ⟨himg, hcap⟩
    | succ n =>
      rw [hd] at hk
      simp at hk

theorem webInv_loadIteration (world : Nat → FrameLoad) (s : WebSys) (h : webInv world s) :
    webInv world (loadIteration world s) := by
  obtain ⟨hi, he, hr⟩ := h
  unfold loadIteration
  cases hload : s.loading with
  | false => simpa [webInv, hload] using ⟨he, hr⟩
  | true =>
    have hidx : s.i = s.entries.length := hi hload
    simp only [Bool.not_true, Bool.false_eq_true, if_false]
    split
    · rename_i img cap himg hcap
      have hm : entriesMatch world
          (s.entries ++ [{ img := img, caption := cap.orEmpty }]) := by
        apply entriesMatch_snoc world s.entries _ he
        · rw [← hidx]; exact himg
        · rw [← hidx]; exact orEmpty_fetchedCaption _ _ hcap
      split
      · exact ⟨by simp, hm, hr⟩
      · split
        · exact ⟨fun _ => by simp [hidx], hm, hm⟩
        · split
          · exact ⟨by simp, hm, hm⟩
          · exact ⟨by simp, hm, hm⟩
    · exact ⟨by simp, he, hr⟩

theorem webInv_step (world : Nat → FrameLoad) (s : WebSys) (e : WebEvent)
    (h : webInv world s) : webInv world (webStep world s e) := by
  cases e with
  | tick t =>
    obtain ⟨hi, he, hr⟩ := h
    refine ⟨hi, he, ?_⟩
    show entriesMatch world (loop s.st t).1.ring
    rw [loop_ring]
    exact hr
  | settled => exact webInv_loadIteration world s h
  | togglePause => exact h
  | unmount => exact h

theorem webInv_run (world : Nat → FrameLoad) (es : List WebEvent) :
    webInv world (webRun world es) := by
  unfold webRun
  induction es using List.reverseRecOn with
  | nil => exact ⟨fun _ => rfl, entriesMatch_nil world, entriesMatch_nil world⟩
  | append_singleton es e ih =>
    rw [List.foldl_append]
    exact webInv_step world _ e ih

/-! ## Theorems -/

/-- C1: from the empty ring, after any frames `fs` have loaded with capacity `C`
the ring has `min fs.length C` elements and holds exactly the last
`min fs.length C` frames in arrival order; the same for the handler `onload`
of the live player with its capacity 300, which also reports the length; with
capacity 4 and pushes 0..5 the ring is `[2, 3, 4, 5]` and index 0 reads 2. -/
theorem ring_holds_last_frames :
    (∀ (α : Type) (C : Nat) (fs : List α),
      (pushAll C [] fs).length = min fs.length C ∧
      pushAll C [] fs = fs.drop (fs.length - min fs.length C)) ∧
    (∀ fs : List Img,
      (fs.foldl onload LiveState.init).ring.length = min fs.length 300 ∧
      (fs.foldl onload LiveState.init).ring = fs.drop (fs.length - min fs.length 300) ∧
      (fs.foldl onload LiveState.init).bufferSize = min fs.length 300) ∧
    pushAll 4 [] [0, 1, 2, 3, 4, 5] = [2, 3, 4, 5] ∧
    frameAt (pushAll 4 [] [0, 1, 2, 3, 4, 5]) 0 = some 2 := by
  have key : ∀ (α : Type) (C : Nat) (fs : List α),
      (pushAll C [] fs).length = min fs.length C ∧
      pushAll C [] fs = fs.drop (fs.length - min fs.length C) := by
    intro α C fs
    have hd : fs.length - min fs.length C = fs.length - C := by omega
    rw [hd, pushAll_nil_eq_drop, List.length_drop]
    exact ⟨by omega, rfl⟩
  refine ⟨key, ?_, by decide, by decide⟩
  intro fs
  have hr : (fs.foldl onload LiveState.init).ring = pushAll 300 [] fs :=
    foldl_onload_ring fs LiveState.init
  refine ⟨by rw [hr]; exact (key Img 300 fs).1, by rw [hr]; exact (key Img 300 fs).2, ?_⟩
  rcases List.eq_nil_or_concat fs with h | ⟨l, f, h⟩
  · subst h; rfl
  · subst h
    rw [List.concat_eq_append] at *
    rw [foldl_onload_bufferSize, hr]
    exact (key Img 300 _).1

/-- C9: for a non-empty buffer of length L and every index `i` the players can
hold (a natural number: `idxRef.current` starts at 0 and a commit stores the
remainder `(i + 1) % L`, again a natural number), the lookup `buf[i % L]` with
JavaScript's remainder returns the same element for `i` and for `i + L`, the
element at position `i mod L`. -/
theorem frameAt_shift_length {α : Type} (buf : List α) (i : Nat) (hne : buf ≠ []) :
    frameAt buf (i : Int) = frameAt buf ((i : Int) + buf.length) ∧
    (∃ f : α, frameAt buf (i : Int) = some f ∧
      frameAt buf ((i : Int) + buf.length) = some f ∧
      buf.get? (i % buf.length) = some f) ∧
    jsRem ((i : Int) + 1) buf.length = (((i + 1) % buf.length : Nat) : Int) := by
  have hpos : 0 < buf.length := List.length_pos.mpr hne
  have hk : i % buf.length < buf.length := Nat.mod_lt _ hpos
  have hs := frameAt_shift_nonneg buf (i : Int) (Int.ofNat_nonneg i)
  have hf : frameAt buf (i : Int) = some (buf.get ⟨i % buf.length, hk⟩) := by
    rw [frameAt_natCast]
    exact List.get?_eq_get hk
  refine ⟨hs, ⟨buf.get ⟨i % buf.length, hk⟩, hf, ?_, List.get?_eq_get hk⟩, ?_⟩
  · rw [← hs]
    exact hf
  · have e : (i : Int) + 1 = ((i + 1 : Nat) : Int) := by push_cast; rfl
    rw [e, jsRem_natCast]

/-- C9, on a three-frame buffer at index 4: both `buf[4 % 3]` and `buf[7 % 3]`
are the second frame. -/
theorem frameAt_shift_length_witness :
    ([10, 20, 30] : List Nat) ≠ [] ∧
    frameAt [10, 20, 30] ((4 : Nat) : Int) = some 20 ∧
    frameAt [10, 20, 30] (((4 : Nat) : Int) + (([10, 20, 30] : List Nat).length : Int)) =
      some 20 := by
  have h := frameAt_shift_length [10, 20, 30] 4 (by decide)
  have h4 : frameAt [10, 20, 30] ((4 : Nat) : Int) = some 20 := by decide
  exact ⟨by decide, h4, by rw [← h.1]; exact h4⟩

/-- C2: for an image and a canvas of positive sizes, `drawCover` takes the
canvas height and centres horizontally (`dh = ch`, `dx = -(dw - cw)/2`,
`dy = 0`) when the image is relatively wider than the canvas, and otherwise
takes the canvas width and centres vertically (`dw = cw`, `dy = -(dh - ch)/2`,
`dx = 0`); in both cases the drawn rectangle covers the canvas.  The canvas
width needs no assumption. -/
theorem drawCover_covers (iw ih cw ch : ℚ) (hiw : 0 < iw) (hih : 0 < ih) (hch : 0 < ch) :
    (if iw / ih > cw / ch then
        (drawCover iw ih cw ch).dh = ch ∧
        (drawCover iw ih cw ch).dx = -((drawCover iw ih cw ch).dw - cw) / 2 ∧
        (drawCover iw ih cw ch).dy = 0
      else
        (drawCover iw ih cw ch).dw = cw ∧
        (drawCover iw ih cw ch).dy = -((drawCover iw ih cw ch).dh - ch) / 2 ∧
        (drawCover iw ih cw ch).dx = 0) ∧
    (drawCover iw ih cw ch).dx ≤ 0 ∧
    (drawCover iw ih cw ch).dy ≤ 0 ∧
    (drawCover iw ih cw ch).dx + (drawCover iw ih cw ch).dw ≥ cw ∧
    (drawCover iw ih cw ch).dy + (drawCover iw ih cw ch).dh ≥ ch := by
  have ha : 0 < iw / ih := div_pos hiw hih
  by_cases hgt : iw / ih > cw / ch
  · have hw : cw < ch * (iw / ih) := by
      have := (div_lt_iff₀ hch).mp hgt
      linarith [mul_comm (iw / ih) ch]
    have e : drawCover iw ih cw ch =
        { dx := -(ch * (iw / ih) - cw) / 2, dy := 0, dw := ch * (iw / ih), dh := ch } := by
      simp only [drawCover, hgt, if_true]
    rw [e, if_pos hgt]
    refine ⟨⟨rfl, rfl, rfl⟩, ?_, le_refl _, ?_, ?_⟩
    · show -(ch * (iw / ih) - cw) / 2 ≤ 0
      linarith
    · show -(ch * (iw / ih) - cw) / 2 + ch * (iw / ih) ≥ cw
      linarith
    · show (0 : ℚ) + ch ≥ ch
      linarith
  · have hle : iw / ih ≤ cw / ch := not_lt.mp hgt
    have hh : ch ≤ cw / (iw / ih) := by
      rw [le_div_iff₀ ha]
      have := (le_div_iff₀ hch).mp hle
      linarith [mul_comm (iw / ih) ch]
    have e : drawCover iw ih cw ch =
        { dx := 0, dy := -(cw / (iw / ih) - ch) / 2, dw := cw, dh := cw / (iw / ih) } := by
      simp only [drawCover, hgt, if_false]
    rw [e, if_neg hgt]
    refine ⟨⟨rfl, rfl, rfl⟩, le_refl _, ?_, ?_, ?_⟩
    · show -(cw / (iw / ih) - ch) / 2 ≤ 0
      linarith
    · show (0 : ℚ) + cw ≥ cw
      linarith
    · show -(cw / (iw / ih) - ch) / 2 + cw / (iw / ih) ≥ ch
      linarith

/-- C2, at a 2000 by 1000 image on the 1024 by 768 canvas: the rectangle is
1536 by 768 at horizontal offset -256. -/
theorem drawCover_covers_witness :
    (0 : ℚ) < 2000 ∧ (0 : ℚ) < 1000 ∧ (0 : ℚ) < 768 ∧
    (drawCover 2000 1000 1024 768).dx ≤ 0 ∧
    (drawCover 2000 1000 1024 768).dx + (drawCover 2000 1000 1024 768).dw ≥ 1024 ∧
    drawCover 2000 1000 1024 768 = { dx := -256, dy := 0, dw := 1536, dh := 768 } :=
  ⟨by norm_num, by norm_num, by norm_num,
   (drawCover_covers 2000 1000 1024 768 (by norm_num) (by norm_num) (by norm_num)).2.1,
   (drawCover_covers 2000 1000 1024 768 (by norm_num) (by norm_num) (by norm_num)).2.2.2.1,
   by norm_num [drawCover]⟩

/-! ## Lemmas: location references -/

theorem slashChar_ne_backslash (c : Char) : slashChar c ≠ '\\' := by
  unfold slashChar
  split
  · decide
  · assumption

theorem backslash_not_mem_map (p : List Char) : '\\' ∉ p.map slashChar := by
  intro h
  obtain ⟨c, _, hc⟩ := List.mem_map.mp h
  exact slashChar_ne_backslash c hc

theorem toFileURLChars_eq (p : List Char) :
    toFileURLChars p =
      (if "file://".toList.isPrefixOf (p.map slashChar) then []
        else if driveLetter (p.map slashChar) then "file:///".toList
        else "file://".toList) ++ p.map slashChar := by
  unfold toFileURLChars
  simp only []
  generalize "file://".toList.isPrefixOf (p.map slashChar) = b1
  generalize driveLetter (p.map slashChar) = b2
  cases b1 <;> cases b2 <;> rfl

/-- C6 (counterexample): a reference that already carries the `http` scheme
still gets `file://` put in front of it. -/
theorem toFileURL_http_gets_file_scheme :
    toFileURL "http://host/x.jpg" = "file://http://host/x.jpg" ∧
    toFileURL "http://host/x.jpg" ≠ "http://host/x.jpg" := by
  decide

/-- C6 (amended): `toFileURL p` contains no backslash and is the
slash-converted `p` with something put in front of it unless the
slash-converted `p` already starts with `file://`: then nothing is put in
front; otherwise `file:///` for a drive-letter path and `file://` for anything
else, references with another scheme included.  So `C:\dir\a.jpg` becomes
`file:///C:/dir/a.jpg`, `/tmp/a.jpg` becomes `file:///tmp/a.jpg`, and
`file:///tmp\a.jpg` becomes `file:///tmp/a.jpg`. -/
theorem toFileURL_normalizes (p : String) :
    '\\' ∉ (toFileURL p).toList ∧
    (toFileURL p).toList =
      (if "file://".toList.isPrefixOf (p.toList.map slashChar) then []
        else if driveLetter (p.toList.map slashChar) then "file:///".toList
        else "file://".toList) ++ p.toList.map slashChar ∧
    toFileURL "C:\\dir\\a.jpg" = "file:///C:/dir/a.jpg" ∧
    toFileURL "/tmp/a.jpg" = "file:///tmp/a.jpg" ∧
    toFileURL "file:///tmp\\a.jpg" = "file:///tmp/a.jpg" := by
  have e : (toFileURL p).toList = toFileURLChars p.toList := rfl
  refine ⟨?_, by rw [e, toFileURLChars_eq], by decide, by decide, by decide⟩
  rw [e, toFileURLChars_eq]
  intro h
  rcases List.mem_append.mp h with h | h
  · revert h
    generalize "file://".toList.isPrefixOf (p.toList.map slashChar) = b1
    generalize driveLetter (p.toList.map slashChar) = b2
    cases b1 <;> cases b2 <;> decide
  · exact backslash_not_mem_map _ h

/-- C3 (failing input): on the two-frame players with the transition start
unset, a first tick at timestamp 0 stores the start 0; at the tick at 2500 the
elapsed time since that start is 2500, at least 2000, yet neither player
commits: the index stays 0 where `(0 + 1) mod 2` is 1, the start is moved to
2500 and the preloaded caption is not republished. -/
theorem zero_start_tick_skips_commit :
    (render { demoLive with start := none } 0).1.start = some 0 ∧
    (loop { demoWeb with start := none } 0).1.start = some 0 ∧
    (2000 : ℚ) ≤ 2500 - 0 ∧
    (demoLive.idx + 1) % demoLive.ring.length = 1 ∧
    (renderAll { demoLive with start := none } [0, 2500]).idx = 0 ∧
    (renderAll { demoLive with start := none } [0, 2500]).start = some 2500 ∧
    (loopAll { demoWeb with start := none } [0, 2500]).idx = 0 ∧
    (loopAll { demoWeb with start := none } [0, 2500]).start = some 2500 ∧
    (loopAll { demoWeb with start := none } [0, 2500]).caption = JsVal.str "first" := by
  have hl1 : (render { demoLive with start := none } 0).1 =
      { demoLive with start := some 0 } := by
    rw [render_hold _ 0 rfl (by decide) (by rw [tickAlpha_unset]; norm_num)]
    rfl
  have hl2 : (render { demoLive with start := some 0 } 2500).1 =
      { demoLive with start := some 2500 } := by
    rw [render_hold _ 2500 rfl (by decide) (by rw [tickAlpha_zero_start]; norm_num)]
    simp [lazyStart]
  have hw1 : (loop { demoWeb with start := none } 0).1 =
      { demoWeb with start := some 0 } := by
    rw [loop_hold _ 0 rfl (by decide) (by rw [tickAlpha_unset]; norm_num)]
    rfl
  have hw2 : (loop { demoWeb with start := some 0 } 2500).1 =
      { demoWeb with start := some 2500 } := by
    rw [loop_hold _ 2500 rfl (by decide) (by rw [tickAlpha_zero_start]; norm_num)]
    simp [lazyStart]
  have hl : renderAll { demoLive with start := none } [0, 2500] =
      { demoLive with start := some 2500 } := by
    simp only [renderAll, List.foldl]
    rw [hl1, hl2]
  have hw : loopAll { demoWeb with start := none } [0, 2500] =
      { demoWeb with start := some 2500 } := by
    simp only [loopAll, List.foldl]
    rw [hw1, hw2]
  refine ⟨by rw [hl1], by rw [hw1], by norm_num, by decide, ?_, ?_, ?_, ?_, ?_⟩
  · rw [hl]; rfl
  · rw [hl]
  · rw [hw]; rfl
  · rw [hw]
  · rw [hw]; rfl

/-- C5: while `paused` is true, any sequence of ticks leaves the whole state of
either player as it was, so the index, the transition start and the caption do
not change; and such a tick draws nothing. -/
theorem paused_ticks_change_nothing (live : LiveState) (web : WebState) (ts : List ℚ)
    (hl : live.paused = true) (hw : web.paused = true) :
    (renderAll live ts = live ∧
      (renderAll live ts).idx = live.idx ∧
      (renderAll live ts).start = live.start ∧
      (renderAll live ts).caption = live.caption) ∧
    (loopAll web ts = web ∧
      (loopAll web ts).idx = web.idx ∧
      (loopAll web ts).start = web.start ∧
      (loopAll web ts).caption = web.caption) ∧
    (∀ t : ℚ, (render live t).2 = [] ∧ (loop web t).2 = []) := by
  have e1 : ∀ l : List ℚ, renderAll live l = live := by
    intro l
    unfold renderAll
    induction l with
    | nil => rfl
    | cons t l ih => rw [List.foldl_cons, render_paused live t hl]; exact ih
  have e2 : ∀ l : List ℚ, loopAll web l = web := by
    intro l
    unfold loopAll
    induction l with
    | nil => rfl
    | cons t l ih => rw [List.foldl_cons, loop_paused web t hw]; exact ih
  have e1 := e1 ts
  have e2 := e2 ts
  refine ⟨⟨e1, by rw [e1], by rw [e1], by rw [e1]⟩, ⟨e2, by rw [e2], by rw [e2], by rw [e2]⟩, ?_⟩
  intro t
  rw [render_paused live t hl, loop_paused web t hw]
  exact ⟨rfl, rfl⟩

/-- C5, on the two-frame players once paused, over three ticks of which the
last two are past the end of the crossfade. -/
theorem paused_ticks_change_nothing_witness :
    (handlePause demoLive).paused = true ∧ ({ demoWeb with paused := true } : WebState).paused = true ∧
    (renderAll (handlePause demoLive) [500, 2100, 9000]).idx = 0 ∧
    (renderAll (handlePause demoLive) [500, 2100, 9000]).start = some 100 ∧
    (loopAll { demoWeb with paused := true } [500, 2100, 9000]).idx = 0 ∧
    (loopAll { demoWeb with paused := true } [500, 2100, 9000]).caption = JsVal.str "first" := by
  have h := paused_ticks_change_nothing (handlePause demoLive) { demoWeb with paused := true }
    [500, 2100, 9000] rfl rfl
  exact ⟨rfl, rfl, h.1.2.1, h.1.2.2.1, h.2.1.2.1, h.2.1.2.2.2⟩

/-- C4 (failing input): on the two-frame players with the transition start
unset, a first tick at timestamp 0 stores the start 0; the tick at 500, at
elapsed time 500 since that start, finds the start falsy, moves it to 500 and
computes alpha 0, where `min(1, (500 - 0) / 2000)` is 1/4. -/
theorem alpha_restarts_from_zero_start :
    (render { demoLive with start := none } 0).1.start = some 0 ∧
    (loop { demoWeb with start := none } 0).1.start = some 0 ∧
    tickAlpha (render { demoLive with start := none } 0).1.start 500 = 0 ∧
    tickAlpha (loop { demoWeb with start := none } 0).1.start 500 = 0 ∧
    min 1 (((500 : ℚ) - 0) / 2000) = 1 / 4 ∧
    tickAlpha (some 0) 500 ≠ min 1 (((500 : ℚ) - 0) / 2000) ∧
    (render { demoLive with start := some 0 } 500).1.start = some 500 ∧
    (loop { demoWeb with start := some 0 } 500).1.start = some 500 := by
  have hl1 : (render { demoLive with start := none } 0).1.start = some 0 := by
    rw [render_hold _ 0 rfl (by decide) (by rw [tickAlpha_unset]; norm_num)]
    rfl
  have hw1 : (loop { demoWeb with start := none } 0).1.start = some 0 := by
    rw [loop_hold _ 0 rfl (by decide) (by rw [tickAlpha_unset]; norm_num)]
    rfl
  have hl2 : (render { demoLive with start := some 0 } 500).1.start = some 500 := by
    rw [render_hold _ 500 rfl (by decide) (by rw [tickAlpha_zero_start]; norm_num)]
    simp [lazyStart]
  have hw2 : (loop { demoWeb with start := some 0 } 500).1.start = some 500 := by
    rw [loop_hold _ 500 rfl (by decide) (by rw [tickAlpha_zero_start]; norm_num)]
    simp [lazyStart]
  have h3 : min 1 (((500 : ℚ) - 0) / 2000) = 1 / 4 := by norm_num
  refine ⟨hl1, hw1, by rw [hl1]; exact tickAlpha_zero_start 500,
    by rw [hw1]; exact tickAlpha_zero_start 500, h3, ?_, hl2, hw2⟩
  rw [tickAlpha_zero_start, h3]
  norm_num

/-- C10: on states with the same `paused`, index, transition start and buffer
length, `render` and `loop` leave the same index and transition start when
paused or when the buffer is non-empty.  On an unpaused tick over an empty
buffer `loop` leaves both unchanged, while `render` keeps the index and stores
the lazily set start; the two results differ exactly when the start was unset
(`null`, or 0 at a non-zero timestamp), and from `null` the live start
becomes `now`. -/
theorem render_loop_agree (live : LiveState) (web : WebState) (now : ℚ)
    (hp : live.paused = web.paused) (hi : live.idx = web.idx)
    (hs : live.start = web.start) (hn : live.ring.length = web.ring.length) :
    (if live.paused = true ∨ live.ring.length ≠ 0 then
        (render live now).1.playback = (loop web now).1.playback
      else
        (loop web now).1.playback = web.playback ∧
        (render live now).1.idx = live.idx ∧
        (render live now).1.start = some (lazyStart live.start now) ∧
        ((render live now).1.playback ≠ (loop web now).1.playback ↔
          (live.start = none ∨ (live.start = some 0 ∧ now ≠ 0)))) ∧
    lazyStart none now = now := by
  refine ⟨?_, rfl⟩
  split
  · rename_i hc
    cases hpz : live.paused with
    | true =>
      rw [render_paused live now hpz, loop_paused web now (hp ▸ hpz)]
      simp [LiveState.playback, WebState.playback, hi, hs]
    | false =>
      have hl : 0 < live.ring.length := by
        rcases hc with h | h
        · rw [hpz] at h; exact absurd h (by decide)
        · omega
      have hw : 0 < web.ring.length := hn ▸ hl
      have hwp : web.paused = false := hp ▸ hpz
      by_cases ha : 1 ≤ tickAlpha live.start now
      · rw [render_commit live now hpz hl ha, loop_commit web now hwp hw (hs ▸ ha)]
        simp [LiveState.playback, WebState.playback, hi, hn]
      · rw [render_hold live now hpz hl (not_le.mp ha),
          loop_hold web now hwp hw (hs ▸ not_le.mp ha)]
        simp [LiveState.playback, WebState.playback, hi, hs]
  · rename_i hc
    have hpz : live.paused = false := by
      cases h : live.paused with
      | true => exact absurd (Or.inl h) hc
      | false => rfl
    have hl : live.ring.length = 0 := by
      by_contra h
      exact hc (Or.inr h)
    rw [render_empty live now hpz hl, loop_empty web now (hn ▸ hl)]
    refine ⟨rfl, rfl, rfl, ?_⟩
    simp only [LiveState.playback, WebState.playback, ← hs, ← hi, ne_eq, Playback.mk.injEq,
      true_and]
    cases hst : live.start with
    | none => simp
    | some v =>
      by_cases hv : v = 0
      · subst hv
        simp [lazyStart, eq_comm]
      · simp [lazyStart, hv]

/-- C10, on the two-frame players at 2100 ms (same result) and on the freshly
mounted players, whose buffers are empty, at 16 ms (the live start becomes 16,
the preloaded start stays unset). -/
theorem render_loop_agree_witness :
    (demoLive.paused = demoWeb.paused ∧ demoLive.idx = demoWeb.idx ∧
      demoLive.start = demoWeb.start ∧ demoLive.ring.length = demoWeb.ring.length) ∧
    (render demoLive 2100).1.playback = (loop demoWeb 2100).1.playback ∧
    (loop WebState.init 16).1.playback = WebState.init.playback ∧
    (render LiveState.init 16).1.playback ≠ (loop WebState.init 16).1.playback := by
  have h1 := render_loop_agree demoLive demoWeb 2100 rfl rfl rfl rfl
  have h2 := render_loop_agree LiveState.init WebState.init 16 rfl rfl rfl rfl
  have c1 : demoLive.paused = true ∨ demoLive.ring.length ≠ 0 := Or.inr (by decide)
  have c2 : ¬ (LiveState.init.paused = true ∨ LiveState.init.ring.length ≠ 0) := by decide
  rw [if_pos c1] at h1
  rw [if_neg c2] at h2
  exact ⟨⟨rfl, rfl, rfl, rfl⟩, h1.1, h2.1.1, h2.1.2.2.2.mpr (Or.inl rfl)⟩

/-- C7 (counterexample): a message that parses and whose `type` is an unknown
string is dropped without any `console.warn`: the state, the warning count
included, is what it was. -/
theorem unknown_type_is_silent :
    invalidMessage bogusMessage = true ∧
    ∃ st1 : LiveState, onmessage LiveState.init bogusMessage = .ok st1 ∧
      st1.warnings = LiveState.init.warnings ∧
      st1.warnings ≠ LiveState.init.warnings + 1 :=
  ⟨by decide, LiveState.init, rfl, rfl, by decide⟩

/-- C7 (amended): on every invalid message (corrupt payload, or a parsed
value whose `type` is neither `"new_frame"` nor `"explain_result"`) the
handler does not throw and leaves the ring, its length and the rest of the
state unchanged except for the warning count, which grows by exactly one when
the payload is corrupt or parses to `null` and does not grow otherwise.  On
any message at all the handler does not throw and leaves the ring unchanged. -/
theorem invalid_message_leaves_ring (st : LiveState) (r : ParseResult)
    (h : invalidMessage r = true) :
    (∃ st1 : LiveState, onmessage st r = .ok st1 ∧
      st1.ring = st.ring ∧ st1.ring.length = st.ring.length ∧
      st1.warnings = st.warnings + (if unreadable r then 1 else 0) ∧
      st1 = { st with warnings := st1.warnings }) ∧
    (∀ r1 : ParseResult, ∃ st1 : LiveState, onmessage st r1 = .ok st1 ∧ st1.ring = st.ring) := by
  constructor
  · cases r with
    | corrupt => exact ⟨_, rfl, rfl, rfl, rfl, rfl⟩
    | nullValue => exact ⟨_, rfl, rfl, rfl, rfl, rfl⟩
    | value msg =>
      simp only [invalidMessage, Bool.and_eq_true, Bool.not_eq_true'] at h
      refine ⟨st, ?_, rfl, rfl, rfl, rfl⟩
      simp [onmessage, onmessageBody, h.1, h.2]
  · intro r1
    cases r1 with
    | corrupt => exact ⟨_, rfl, rfl⟩
    | nullValue => exact ⟨_, rfl, rfl⟩
    | value msg =>
      unfold onmessage onmessageBody
      simp only []
      split_ifs
      · exact ⟨_, rfl, rfl⟩
      · cases toFileURLVal msg.path with
        | ok u => exact ⟨_, rfl, rfl⟩
        | error e => exact ⟨_, rfl, rfl⟩
      · exact ⟨_, rfl, rfl⟩
      · exact ⟨_, rfl, rfl⟩
      · exact ⟨_, rfl, rfl⟩

/-- C7 (amended), on the two-frame player with a corrupt payload: one warning,
the ring as before. -/
theorem invalid_message_leaves_ring_witness :
    invalidMessage ParseResult.corrupt = true ∧
    ∃ st1 : LiveState, onmessage demoLive ParseResult.corrupt = .ok st1 ∧
      st1.ring = demoLive.ring ∧ st1.warnings = demoLive.warnings + 1 := by
  obtain ⟨st1, h1, h2, _, h4, _⟩ :=
    (invalid_message_leaves_ring demoLive ParseResult.corrupt rfl).1
  exact ⟨rfl, st1, h1, h2, h4⟩

/-- C8: in the preloaded player, after any events from mounting (frames
settling as the world says, ticks, pause toggles, unmount), an unpaused tick
over a non-empty ring whose alpha is at least 1 moves to index
`i = (currentIndex + 1) mod L`, and the caption right after it is the stored
caption of frame `i`: the `caption` field of the metadata fetched for frame
`i`, or the empty string when that fetch failed, was not OK or had no caption;
and the ring entry at `i` holds the image of frame `i`.  The stored caption of
a string caption is that string, and it is empty for a missing caption, a
rejected fetch, a non-OK response and a body that is not JSON. -/
theorem caption_after_commit (world : Nat → FrameLoad) (es : List WebEvent) (t : ℚ)
    (hp : (webRun world es).st.paused = false)
    (hne : (webRun world es).st.ring ≠ [])
    (ha : 1 ≤ tickAlpha (webRun world es).st.start t) :
    (loop (webRun world es).st t).1.idx =
      ((webRun world es).st.idx + 1) % (webRun world es).st.ring.length ∧
    (loop (webRun world es).st t).1.caption =
      storedCaption (world (loop (webRun world es).st t).1.idx).metadata ∧
    (∃ e : Entry, (webRun world es).st.ring.get? (loop (webRun world es).st t).1.idx = some e ∧
      (world (loop (webRun world es).st t).1.idx).img = some e.img) ∧
    (∀ c : String, storedCaption (MetaFetch.json (JsVal.str c)) = JsVal.str c) ∧
    storedCaption (MetaFetch.json JsVal.undefined) = JsVal.str "" ∧
    storedCaption MetaFetch.rejected = JsVal.str "" ∧
    storedCaption MetaFetch.notOk = JsVal.str "" ∧
    storedCaption MetaFetch.badJson = JsVal.str "" := by
  have hstr : ∀ c : String, storedCaption (MetaFetch.json (JsVal.str c)) = JsVal.str c := by
    intro c
    unfold storedCaption JsVal.truthy
    by_cases hc : c = ""
    · simp [hc]
    · simp [hc]
  have hinv := (webInv_run world es).2.2
  have hl : 0 < (webRun world es).st.ring.length := List.length_pos.mpr hne
  have hk : ((webRun world es).st.idx + 1) % (webRun world es).st.ring.length <
      (webRun world es).st.ring.length := Nat.mod_lt _ hl
  have hget := List.get?_eq_get hk
  have hm := hinv _ _ hget
  rw [loop_commit _ t hp hl ha]
  refine ⟨rfl, ?_, ⟨_, hget, hm.1⟩, hstr, rfl, rfl, rfl, rfl⟩
  show ((webRun world es).st.ring.get ⟨_, hk⟩).caption.orEmpty = _
  rw [hm.2, orEmpty_storedCaption]

/-- C8, in the demo world after two frames have settled and a first tick at
100 ms: the tick at 2100 ms moves to index 1, whose metadata request was not
OK, and the caption becomes the empty string. -/
theorem caption_after_commit_witness :
    (webRun demoWorld [WebEvent.settled, WebEvent.settled, WebEvent.tick 100]).st.paused = false ∧
    (webRun demoWorld [WebEvent.settled, WebEvent.settled, WebEvent.tick 100]).st.ring ≠ [] ∧
    1 ≤ tickAlpha
      (webRun demoWorld [WebEvent.settled, WebEvent.settled, WebEvent.tick 100]).st.start 2100 ∧
    (loop (webRun demoWorld
      [WebEvent.settled, WebEvent.settled, WebEvent.tick 100]).st 2100).1.idx = 1 ∧
    (loop (webRun demoWorld
      [WebEvent.settled, WebEvent.settled, WebEvent.tick 100]).st 2100).1.caption = JsVal.str "" := by
  have hst : (webRun demoWorld [WebEvent.settled, WebEvent.settled, WebEvent.tick 100]).st =
      { ring := [{ img := demoFrame, caption := JsVal.str "a caption" },
                 { img := demoFrame, caption := JsVal.str "" }],
        bufferSize := 2, caption := JsVal.str "", paused := false, idx := 0,
        start := some 100 } := by
    have h2 : (webRun demoWorld [WebEvent.settled, WebEvent.settled]).st =
        { ring := [{ img := demoFrame, caption := JsVal.str "a caption" },
                   { img := demoFrame, caption := JsVal.str "" }],
          bufferSize := 2, caption := JsVal.str "", paused := false, idx := 0,
          start := none } := rfl
    have h3 : (webRun demoWorld [WebEvent.settled, WebEvent.settled, WebEvent.tick 100]).st =
        (loop (webRun demoWorld [WebEvent.settled, WebEvent.settled]).st 100).1 := rfl
    rw [h3, h2]
    rw [loop_hold _ 100 rfl (by decide) (by rw [tickAlpha_unset]; norm_num)]
    rfl
  have hp : (webRun demoWorld
      [WebEvent.settled, WebEvent.settled, WebEvent.tick 100]).st.paused = false := by
    rw [hst]
  have hne : (webRun demoWorld
      [WebEvent.settled, WebEvent.settled, WebEvent.tick 100]).st.ring ≠ [] := by
    rw [hst]; simp
  have ha : 1 ≤ tickAlpha (webRun demoWorld
      [WebEvent.settled, WebEvent.settled, WebEvent.tick 100]).st.start 2100 := by
    rw [hst]; exact le_of_eq tickAlpha_100_2100.symm
  have h := caption_after_commit demoWorld
    [WebEvent.settled, WebEvent.settled, WebEvent.tick 100] 2100 hp hne ha
  have hidx : (loop (webRun demoWorld
      [WebEvent.settled, WebEvent.settled, WebEvent.tick 100]).st 2100).1.idx = 1 := by
    rw [h.1, hst]
    rfl
  refine ⟨hp, hne, ha, hidx, ?_⟩
  rw [h.2.1, hidx]
  rfl

end NewNewMedia
